import Mathlib

/-!
Verification of `deputies.py` (DeputiesLinks): a tool that reads a CSV of
nomination records (candidate, proposer, seconder), builds a directed graph
with `networkx.DiGraph`, and exports an interactive HTML document, injecting
a search banner after the opening `<body>` tag.

The embedding below models:
  * Python `str.strip` / `str.replace` / substring counting on character
    lists (structural recursion so the kernel can evaluate them);
  * `networkx.DiGraph` as used by the script: a node list keyed by name with
    an optional `role` attribute, and an edge list keyed by the ordered
    `(source, target)` pair with a `relation` attribute.  `add_node` on an
    existing node overwrites its attributes, `add_edge` on an existing
    `(source, target)` pair overwrites the `relation` attribute, and
    `add_edge` inserts missing endpoint nodes without a `role` attribute —
    exactly the library semantics the script relies on;
  * `read_rows`, `build_graph` and the HTML-patching step of `export_html`.
-/

set_option autoImplicit false
set_option maxRecDepth 100000

namespace Deputies

/-- Python `str.strip()` as used in `row[relation].strip()`:
remove leading and trailing whitespace characters. -/
def pyStrip (s : String) : String :=
  ⟨((s.data.dropWhile Char.isWhitespace).reverse.dropWhile Char.isWhitespace).reverse⟩

/-- Recursion core of Python `str.replace`: scan left to right, replacing
each non-overlapping occurrence of `pat` by `rep`.  The fuel argument (the
length of the scanned list) makes the recursion structural. -/
def replaceFuel (pat rep : List Char) : Nat → List Char → List Char
  | 0, s => s
  | _ + 1, [] => []
  | n + 1, c :: rest =>
    if pat.isPrefixOf (c :: rest) then rep ++ replaceFuel pat rep n ((c :: rest).drop pat.length)
    else c :: replaceFuel pat rep n rest

/-- Python `str.replace(pat, rep)` for a non-empty pattern, as used by
`export_html` with pattern `"<body>"`. -/
def pyReplace (s pat rep : String) : String :=
  if pat.data = [] then s else ⟨replaceFuel pat.data rep.data s.data.length s.data⟩

/-- Recursion core of Python `str.count`: number of non-overlapping
occurrences of `pat`, scanning left to right. -/
def countFuel (pat : List Char) : Nat → List Char → Nat
  | 0, _ => 0
  | _ + 1, [] => 0
  | n + 1, c :: rest =>
    if pat.isPrefixOf (c :: rest) then 1 + countFuel pat n ((c :: rest).drop pat.length)
    else countFuel pat n rest

/-- Number of non-overlapping occurrences of the non-empty substring `pat`
in `s` (Python `s.count(pat)`), used to state properties of the exported
document. -/
def countOccur (s pat : String) : Nat :=
  countFuel pat.data s.data.length s.data

/-- One CSV record with the four required columns of `read_rows`. -/
structure Row where
  candidate_surname : String
  candidate_firstname : String
  proposer : String
  seconder : String
deriving DecidableEq, Repr

/-- The `networkx.DiGraph` state built by `build_graph`: nodes keyed by
name carrying an optional `role` attribute (a node inserted by `add_edge`
has none), and edges keyed by the ordered `(source, target)` pair carrying
a `relation` attribute.  Both lists are kept in insertion order and hold at
most one entry per key, as in the library. -/
structure Graph where
  nodes : List (String × Option String)
  edges : List (String × String × String)
deriving DecidableEq, Repr

/-- `networkx.DiGraph.has_node`. -/
def Graph.has_node (G : Graph) (n : String) : Bool :=
  G.nodes.any (fun p => p.1 == n)

/-- `networkx.DiGraph.add_node(n, role=role)`: inserting an existing node
updates (overwrites) its attribute dictionary. -/
def Graph.add_node (G : Graph) (n : String) (role : String) : Graph :=
  if G.has_node n then
    { G with nodes := G.nodes.map (fun p => if p.1 == n then (p.1, some role) else p) }
  else
    { G with nodes := G.nodes ++ [(n, some role)] }

/-- `networkx.DiGraph.add_edge(u, v, relation=rel)`: missing endpoints are
inserted as attribute-less nodes; inserting an existing `(u, v)` edge
overwrites its `relation` attribute (a `DiGraph` holds at most one edge per
ordered pair). -/
def Graph.add_edge (G : Graph) (u v rel : String) : Graph :=
  let G1 := if G.has_node u then G else { G with nodes := G.nodes ++ [(u, none)] }
  let G2 := if G1.has_node v then G1 else { G1 with nodes := G1.nodes ++ [(v, none)] }
  if G2.edges.any (fun e => e.1 == u && e.2.1 == v) then
    { G2 with edges := G2.edges.map (fun e => if e.1 == u && e.2.1 == v then (u, v, rel) else e) }
  else
    { G2 with edges := G2.edges ++ [(u, v, rel)] }

/-- The candidate display name `f"{row['candidate_firstname']} {row['candidate_surname']}"`. -/
def candName (row : Row) : String :=
  row.candidate_firstname ++ " " ++ row.candidate_surname

/-- `row[relation]` for the two nomination relations iterated by `build_graph`. -/
def rowField (row : Row) (relation : String) : String :=
  if relation == "proposer" then row.proposer else row.seconder

/-- The body of `build_graph`'s inner loop: `nom = row[relation].strip()`;
if non-empty, add the nominator node when absent (with the relation as its
role) and add the edge from nominator to candidate. -/
def processRelation (G : Graph) (cand field relation : String) : Graph :=
  let nom := pyStrip field
  if nom ≠ "" then
    let G1 := if ¬ G.has_node nom then G.add_node nom relation else G
    G1.add_edge nom cand relation
  else G

/-- `build_graph(rows)`: first pass registers every candidate with role
`candidate`; second pass processes, for each row, the `proposer` then the
`seconder` field. -/
def build_graph (rows : List Row) : Graph :=
  let G := rows.foldl (fun G row => G.add_node (candName row) "candidate") ⟨[], []⟩
  rows.foldl (fun G row =>
    ["proposer", "seconder"].foldl (fun G relation =>
      processRelation G (candName row) (rowField row relation) relation) G) G

/-- The required column set of `read_rows`, in the order of the source's
set literal. -/
def requiredCols : List String :=
  ["candidate_surname", "candidate_firstname", "proposer", "seconder"]

/-- `read_rows`: `csv.DictReader` yields `fieldnames` (`none` for an empty
file, modelling Python's `None`) and the data records.  The check
`required.issubset(reader.fieldnames or [])` either raises
`ValueError(f"CSV missing columns: {missing}")` — modelled as `Except.error`
carrying the missing columns — or returns the records unchanged. -/
def read_rows (fieldnames : Option (List String)) (records : List (List String)) :
    Except (List String) (List (List String)) :=
  let fns := fieldnames.getD []
  if requiredCols.all (fun c => fns.contains c) then Except.ok records
  else Except.error (requiredCols.filter (fun c => ! fns.contains c))

/-- Attribute lookup `G.nodes[n]` (`none` when the node is absent,
`some r` when the node is present with role attribute `r`). -/
def roleOf (G : Graph) (n : String) : Option (Option String) :=
  (G.nodes.find? (fun p => p.1 == n)).map (fun p => p.2)

/-- The edge stored for the ordered pair `(u, v)`, with its relation. -/
def lookupEdge (G : Graph) (u v : String) : Option (String × String × String) :=
  G.edges.find? (fun e => e.1 == u && e.2.1 == v)

/-- Number of edges of `G` between the ordered pair `(u, v)`. -/
def countPair (G : Graph) (u v : String) : Nat :=
  G.edges.countP (fun e => e.1 == u && e.2.1 == v)

/-- Number of nodes of `G` named `n`. -/
def countName (G : Graph) (n : String) : Nat :=
  G.nodes.countP (fun p => p.1 == n)

/-- The edge additions `(nom, cand, relation)` attempted for one row, in
processing order (`proposer` before `seconder`), keeping only the fields
whose stripped value is non-empty — read off the second pass of
`build_graph`. -/
def rowAdditions (row : Row) : List (String × String × String) :=
  ["proposer", "seconder"].filterMap (fun relation =>
    let nom := pyStrip (rowField row relation)
    if nom ≠ "" then some (nom, candName row, relation) else none)

/-- All edge additions attempted by `build_graph`, in processing order. -/
def additions (rows : List Row) : List (String × String × String) :=
  rows.flatMap rowAdditions

/-- The last addition made for the ordered pair `(u, v)`, if any. -/
def lastAdd (adds : List (String × String × String)) (u v : String) :
    Option (String × String × String) :=
  adds.reverse.find? (fun e => e.1 == u && e.2.1 == v)

/-- The action of `add_edge` on the edge list alone. -/
def edgeStep (es : List (String × String × String)) (a : String × String × String) :
    List (String × String × String) :=
  if es.any (fun e => e.1 == a.1 && e.2.1 == a.2.1) then
    es.map (fun e => if e.1 == a.1 && e.2.1 == a.2.1 then a else e)
  else
    es ++ [a]

/-! ### Generic association-list lemmas -/

theorem find?_map_of_pred {α : Type} (f : α → α) (P : α → Bool)
    (hf : ∀ e, P (f e) = P e) (es : List α) :
    (es.map f).find? P = (es.find? P).map f := by
  induction es with
  | nil => rfl
  | cons e es ih =>
    by_cases h : P e = true
    · rw [List.map_cons, List.find?_cons_of_pos _ (by rw [hf]; exact h),
        List.find?_cons_of_pos _ h, Option.map_some']
    · rw [List.map_cons, List.find?_cons_of_neg _ (by rw [hf]; exact h),
        List.find?_cons_of_neg _ h, ih]

theorem countP_map_of_pred {α : Type} (f : α → α) (P : α → Bool)
    (hf : ∀ e, P (f e) = P e) (es : List α) :
    (es.map f).countP P = es.countP P := by
  induction es with
  | nil => rfl
  | cons e es ih => rw [List.map_cons, List.countP_cons, List.countP_cons, hf, ih]

theorem find?_append_of_some {α : Type} {P : α → Bool} {es : List α} {x : α}
    (l : List α) (h : es.find? P = some x) : (es ++ l).find? P = some x := by
  rw [List.find?_append, h]; rfl

/-! ### Edge-list lemmas: `edgeStep` and its fold -/

theorem findPair_edgeStep (es : List (String × String × String))
    (a : String × String × String) (u v : String) :
    (edgeStep es a).find? (fun e => e.1 == u && e.2.1 == v)
      = if a.1 = u ∧ a.2.1 = v then some a
        else es.find? (fun e => e.1 == u && e.2.1 == v) := by
  unfold edgeStep
  by_cases hany : es.any (fun e => e.1 == a.1 && e.2.1 == a.2.1) = true
  · rw [if_pos hany]
    have hf : ∀ e : String × String × String,
        ((fun e => e.1 == u && e.2.1 == v)
          (if e.1 == a.1 && e.2.1 == a.2.1 then a else e))
        = ((fun e => e.1 == u && e.2.1 == v) e) := by
      intro e
      by_cases hk : (e.1 == a.1 && e.2.1 == a.2.1) = true
      · simp only [Bool.and_eq_true, beq_iff_eq] at hk
        simp [hk.1, hk.2]
      · simp [hk]
    rw [find?_map_of_pred _ _ hf]
    by_cases hPa : a.1 = u ∧ a.2.1 = v
    · rw [if_pos hPa]
      obtain ⟨e1, he1m, he1k⟩ := List.any_eq_true.1 hany
      simp only [Bool.and_eq_true, beq_iff_eq] at he1k
      have hsome : ∃ x, es.find? (fun e => e.1 == u && e.2.1 == v) = some x := by
        rw [← Option.isSome_iff_exists, List.find?_isSome]
        exact ⟨e1, he1m, by simp [he1k.1, he1k.2, hPa.1, hPa.2]⟩
      obtain ⟨x, hx⟩ := hsome
      have hxP := List.find?_some hx
      simp only [Bool.and_eq_true, beq_iff_eq] at hxP
      rw [hx]
      simp [hxP.1, hxP.2, hPa.1, hPa.2]
    · rw [if_neg hPa]
      cases hx : es.find? (fun e => e.1 == u && e.2.1 == v) with
      | none => rfl
      | some x =>
        have hxP := List.find?_some hx
        simp only [Bool.and_eq_true, beq_iff_eq] at hxP
        have hxk : ¬ (x.1 = a.1 ∧ x.2.1 = a.2.1) := by
          intro hk
          exact hPa ⟨hk.1 ▸ hxP.1, hk.2 ▸ hxP.2⟩
        rw [Option.map_some']
        rw [if_neg (by simp only [Bool.and_eq_true, beq_iff_eq]; exact hxk)]
  · rw [if_neg hany, List.find?_append]
    by_cases hPa : a.1 = u ∧ a.2.1 = v
    · rw [if_pos hPa]
      have hnone : es.find? (fun e => e.1 == u && e.2.1 == v) = none := by
        rw [List.find?_eq_none]
        intro x hxm hxP
        simp only [Bool.and_eq_true, beq_iff_eq] at hxP
        exact hany (List.any_eq_true.2
          ⟨x, hxm, by simp [hxP.1, hxP.2, hPa.1, hPa.2]⟩)
      rw [hnone]
      simp [hPa.1, hPa.2]
    · rw [if_neg hPa]
      have : ([a].find? (fun e => e.1 == u && e.2.1 == v)) = none := by
        rw [List.find?_eq_none]
        intro x hxm hxP
        simp only [List.mem_singleton] at hxm
        simp only [Bool.and_eq_true, beq_iff_eq] at hxP
        exact hPa (hxm ▸ ⟨hxP.1, hxP.2⟩)
      rw [this, Option.or_none]

theorem lastAdd_cons (a : String × String × String)
    (adds : List (String × String × String)) (u v : String) :
    lastAdd (a :: adds) u v
      = (lastAdd adds u v).or (if a.1 = u ∧ a.2.1 = v then some a else none) := by
  unfold lastAdd
  rw [List.reverse_cons, List.find?_append]
  congr 1
  by_cases hPa : a.1 = u ∧ a.2.1 = v
  · rw [if_pos hPa]
    exact List.find?_cons_of_pos _ (by simp [hPa.1, hPa.2])
  · rw [if_neg hPa]
    rw [List.find?_eq_none]
    intro x hxm hxP
    simp only [List.mem_singleton] at hxm
    simp only [Bool.and_eq_true, beq_iff_eq] at hxP
    exact hPa (hxm ▸ ⟨hxP.1, hxP.2⟩)

theorem findPair_foldl_edgeStep (adds : List (String × String × String)) :
    ∀ es : List (String × String × String), ∀ u v : String,
    (adds.foldl edgeStep es).find? (fun e => e.1 == u && e.2.1 == v)
      = (lastAdd adds u v).or (es.find? (fun e => e.1 == u && e.2.1 == v)) := by
  induction adds with
  | nil => intro es u v; rfl
  | cons a adds ih =>
    intro es u v
    rw [List.foldl_cons, ih, findPair_edgeStep, lastAdd_cons, Option.or_assoc]
    congr 1
    by_cases hPa : a.1 = u ∧ a.2.1 = v
    · rw [if_pos hPa, if_pos hPa]; rfl
    · rw [if_neg hPa, if_neg hPa]; rfl

theorem countP_edgeStep_le (es : List (String × String × String))
    (a : String × String × String) (u v : String)
    (h : es.countP (fun e => e.1 == u && e.2.1 == v) ≤ 1) :
    (edgeStep es a).countP (fun e => e.1 == u && e.2.1 == v) ≤ 1 := by
  unfold edgeStep
  by_cases hany : es.any (fun e => e.1 == a.1 && e.2.1 == a.2.1) = true
  · rw [if_pos hany]
    rw [countP_map_of_pred]
    · exact h
    · intro e
      by_cases hk : (e.1 == a.1 && e.2.1 == a.2.1) = true
      · simp only [Bool.and_eq_true, beq_iff_eq] at hk
        simp [hk.1, hk.2]
      · simp [hk]
  · rw [if_neg hany, List.countP_append]
    by_cases hPa : (a.1 == u && a.2.1 == v) = true
    · have hz : es.countP (fun e => e.1 == u && e.2.1 == v) = 0 := by
        rw [List.countP_eq_zero]
        intro x hxm hxP
        simp only [Bool.and_eq_true, beq_iff_eq] at hxP hPa
        exact hany (List.any_eq_true.2
          ⟨x, hxm, by simp [hxP.1, hxP.2, hPa.1, hPa.2]⟩)
      simp [hz, List.countP_cons, hPa]
    · simp [List.countP_cons, hPa, h]

theorem countP_foldl_edgeStep_le (adds : List (String × String × String)) :
    ∀ es : List (String × String × String), ∀ u v : String,
    es.countP (fun e => e.1 == u && e.2.1 == v) ≤ 1 →
    (adds.foldl edgeStep es).countP (fun e => e.1 == u && e.2.1 == v) ≤ 1 := by
  induction adds with
  | nil => intro es u v h; exact h
  | cons a adds ih =>
    intro es u v h
    rw [List.foldl_cons]
    exact ih _ u v (countP_edgeStep_le es a u v h)

/-- `add_node` never changes the edge list. -/
theorem add_node_edges (G : Graph) (n role : String) :
    (G.add_node n role).edges = G.edges := by
  unfold Graph.add_node
  split <;> rfl

/-- The edge list of `add_edge` is `edgeStep` of the edge list. -/
theorem add_edge_edges (G : Graph) (u v rel : String) :
    (G.add_edge u v rel).edges = edgeStep G.edges (u, v, rel) := by
  unfold Graph.add_edge edgeStep
  simp only [apply_ite Graph.edges, ite_self]

/-- The edge list of `processRelation` in terms of `edgeStep`. -/
theorem processRelation_edges (G : Graph) (cand field relation : String) :
    (processRelation G cand field relation).edges
      = if pyStrip field ≠ "" then edgeStep G.edges (pyStrip field, cand, relation)
        else G.edges := by
  unfold processRelation
  by_cases h : pyStrip field ≠ ""
  · rw [if_pos h, if_pos h]
    by_cases hn : G.has_node (pyStrip field) = true
    · simp only [hn, not_true, ite_false, add_edge_edges]
    · simp only [hn, Bool.false_eq_true, not_false_iff, ite_true, add_edge_edges,
        add_node_edges]
  · rw [if_neg h, if_neg h]

theorem rowField_proposer (row : Row) : rowField row "proposer" = row.proposer := rfl

theorem rowField_seconder (row : Row) : rowField row "seconder" = row.seconder := by
  unfold rowField
  rw [if_neg (by decide)]

/-- One row of `build_graph`'s second pass acts on the edge list as the fold
of `edgeStep` over that row's additions. -/
theorem row_pass_edges (G : Graph) (row : Row) :
    (["proposer", "seconder"].foldl (fun G relation =>
        processRelation G (candName row) (rowField row relation) relation) G).edges
      = (rowAdditions row).foldl edgeStep G.edges := by
  have h1 := processRelation_edges G (candName row) row.proposer "proposer"
  have h2 := processRelation_edges
    (processRelation G (candName row) row.proposer "proposer")
    (candName row) row.seconder "seconder"
  simp only [List.foldl_cons, List.foldl_nil, rowField_proposer, rowField_seconder]
  by_cases hp : pyStrip row.proposer = "" <;> by_cases hs : pyStrip row.seconder = ""
  · have hra : rowAdditions row = [] := by
      unfold rowAdditions
      simp [rowField_proposer, rowField_seconder, hp, hs]
    rw [hra, h2, if_neg (by simp [hs]), h1, if_neg (by simp [hp])]
    rfl
  · have hra : rowAdditions row = [(pyStrip row.seconder, candName row, "seconder")] := by
      unfold rowAdditions
      simp [rowField_proposer, rowField_seconder, hp, hs]
    rw [hra, h2, if_pos (by simp [hs]), h1, if_neg (by simp [hp])]
    rfl
  · have hra : rowAdditions row = [(pyStrip row.proposer, candName row, "proposer")] := by
      unfold rowAdditions
      simp [rowField_proposer, rowField_seconder, hp, hs]
    rw [hra, h2, if_neg (by simp [hs]), h1, if_pos (by simp [hp])]
    rfl
  · have hra : rowAdditions row = [(pyStrip row.proposer, candName row, "proposer"),
        (pyStrip row.seconder, candName row, "seconder")] := by
      unfold rowAdditions
      simp [rowField_proposer, rowField_seconder, hp, hs]
    rw [hra, h2, if_pos (by simp [hs]), h1, if_pos (by simp [hp])]
    rfl

/-- The first pass of `build_graph` adds no edges. -/
theorem pass1_edges (rows : List Row) :
    ∀ G : Graph,
    (rows.foldl (fun G row => G.add_node (candName row) "candidate") G).edges
      = G.edges := by
  induction rows with
  | nil => intro G; rfl
  | cons row rows ih =>
    intro G
    rw [List.foldl_cons, ih, add_node_edges]

/-- The second pass of `build_graph` acts on the edge list as the fold of
`edgeStep` over all additions. -/
theorem pass2_edges (rows : List Row) :
    ∀ G : Graph,
    (rows.foldl (fun G row =>
        ["proposer", "seconder"].foldl (fun G relation =>
          processRelation G (candName row) (rowField row relation) relation) G) G).edges
      = (additions rows).foldl edgeStep G.edges := by
  induction rows with
  | nil => intro G; rfl
  | cons row rows ih =>
    intro G
    rw [List.foldl_cons, ih]
    unfold additions
    rw [List.flatMap_cons, List.foldl_append, row_pass_edges]

/-- The edge list of `build_graph` is the fold of `edgeStep` over the
addition sequence, starting from no edges. -/
theorem build_graph_edges (rows : List Row) :
    (build_graph rows).edges = (additions rows).foldl edgeStep [] := by
  unfold build_graph
  rw [pass2_edges, pass1_edges]

/-! ### Node-list lemmas -/

theorem has_node_iff (G : Graph) (m : String) :
    G.has_node m = true ↔ ∃ p ∈ G.nodes, p.1 = m := by
  unfold Graph.has_node
  simp [List.any_eq_true]

theorem has_node_of_roleOf {G : Graph} {m : String} {x : Option String}
    (h : roleOf G m = some x) : G.has_node m = true := by
  unfold roleOf at h
  obtain ⟨p, hp, -⟩ := Option.map_eq_some'.1 h
  have hP := List.find?_some hp
  simp only [beq_iff_eq] at hP
  exact (has_node_iff G m).2 ⟨p, List.mem_of_find?_eq_some hp, hP⟩

/-- Attribute update behaviour of `add_node`: the inserted node's role is
overwritten; every other node keeps its entry. -/
theorem add_node_roleOf (G : Graph) (n role m : String) :
    roleOf (G.add_node n role) m
      = if n = m then some (some role) else roleOf G m := by
  unfold Graph.add_node roleOf
  have hf : ∀ p : String × Option String,
      ((fun p : String × Option String => p.1 == m)
        (if p.1 == n then (p.1, some role) else p))
      = ((fun p : String × Option String => p.1 == m) p) := by
    intro p
    by_cases hk : (p.1 == n) = true
    · simp [hk]
    · simp [hk]
  by_cases hh : G.has_node n = true
  · rw [if_pos hh]
    show ((G.nodes.map _).find? _).map _ = _
    rw [find?_map_of_pred _ _ hf]
    by_cases hnm : n = m
    · subst hnm
      obtain ⟨p1, hp1m, hp1k⟩ := List.any_eq_true.1 hh
      have hsome : ∃ p, G.nodes.find? (fun p => p.1 == n) = some p := by
        rw [← Option.isSome_iff_exists, List.find?_isSome]
        exact ⟨p1, hp1m, hp1k⟩
      obtain ⟨p0, hp0⟩ := hsome
      have hp0k := List.find?_some hp0
      rw [if_pos rfl, hp0, Option.map_some', Option.map_some', if_pos hp0k]
    · rw [if_neg hnm]
      cases hp0 : G.nodes.find? (fun p => p.1 == m) with
      | none => rfl
      | some p0 =>
        have hp0k := List.find?_some hp0
        simp only [beq_iff_eq] at hp0k
        have hcond : ¬ ((p0.1 == n) = true) := by
          simp only [beq_iff_eq, hp0k]
          intro hmn
          exact hnm hmn.symm
        rw [Option.map_some', Option.map_some', Option.map_some', if_neg hcond]
  · rw [if_neg hh]
    show (((G.nodes ++ [(n, some role)]).find? _)).map _ = _
    rw [List.find?_append]
    by_cases hnm : n = m
    · subst hnm
      have hnone : G.nodes.find? (fun p => p.1 == n) = none := by
        rw [List.find?_eq_none]
        intro p hpm hpk
        exact hh (List.any_eq_true.2 ⟨p, hpm, hpk⟩)
      rw [hnone, if_pos rfl]
      simp
    · have hsing : ([(n, some role)].find? (fun p => p.1 == m)) = none := by
        rw [List.find?_eq_none]
        intro p hpm hpk
        simp only [List.mem_singleton] at hpm
        simp only [beq_iff_eq] at hpk
        exact hnm (by rw [hpm] at hpk; exact hpk)
      rw [hsing, Option.or_none, if_neg hnm]

/-- `add_edge` only ever appends (attribute-less) nodes. -/
theorem add_edge_nodes_suffix (G : Graph) (u v rel : String) :
    ∃ l, (G.add_edge u v rel).nodes = G.nodes ++ l := by
  unfold Graph.add_edge
  simp only [apply_ite Graph.nodes, ite_self]
  split
  · split
    · exact ⟨[], by simp⟩
    · exact ⟨[(v, none)], rfl⟩
  · split
    · exact ⟨[(u, none)], rfl⟩
    · exact ⟨[(u, none), (v, none)], by simp⟩

theorem add_edge_roleOf {G : Graph} {m : String} {x : Option String}
    (u v rel : String) (h : roleOf G m = some x) :
    roleOf (G.add_edge u v rel) m = some x := by
  obtain ⟨l, hl⟩ := add_edge_nodes_suffix G u v rel
  unfold roleOf at h ⊢
  rw [hl]
  obtain ⟨p, hp, hp2⟩ := Option.map_eq_some'.1 h
  rw [find?_append_of_some l hp, Option.map_some', hp2]

theorem processRelation_roleOf {G : Graph} {m : String} {x : Option String}
    (cand field relation : String) (h : roleOf G m = some x) :
    roleOf (processRelation G cand field relation) m = some x := by
  unfold processRelation
  by_cases hne : pyStrip field ≠ ""
  · rw [if_pos hne]
    by_cases hhn : G.has_node (pyStrip field) = true
    · rw [if_neg (by simp [hhn])]
      exact add_edge_roleOf _ _ _ h
    · rw [if_pos (by simp [hhn])]
      have hnm : pyStrip field ≠ m := by
        intro heq
        exact hhn (heq ▸ has_node_of_roleOf h)
      have hrole := add_node_roleOf G (pyStrip field) relation m
      rw [if_neg hnm] at hrole
      exact add_edge_roleOf _ _ _ (hrole.trans h)
  · rw [if_neg hne]
    exact h

/-- Re-registering a candidate keeps the `candidate` role. -/
theorem pass1_roleOf_preserved (rows : List Row) :
    ∀ G : Graph, ∀ m : String,
    roleOf G m = some (some "candidate") →
    roleOf (rows.foldl (fun G row => G.add_node (candName row) "candidate") G) m
      = some (some "candidate") := by
  induction rows with
  | nil => intro G m h; exact h
  | cons row rows ih =>
    intro G m h
    rw [List.foldl_cons]
    apply ih
    rw [add_node_roleOf]
    by_cases hc : candName row = m
    · rw [if_pos hc]
    · rw [if_neg hc]; exact h

/-- After the first pass, every row's candidate is present with role
`candidate`. -/
theorem pass1_roleOf (rows : List Row) :
    ∀ G : Graph, ∀ row : Row, row ∈ rows →
    roleOf (rows.foldl (fun G row => G.add_node (candName row) "candidate") G)
      (candName row) = some (some "candidate") := by
  induction rows with
  | nil => intro G row h; cases h
  | cons r rows ih =>
    intro G row h
    rw [List.foldl_cons]
    rcases List.mem_cons.1 h with heq | hmem
    · subst heq
      apply pass1_roleOf_preserved
      rw [add_node_roleOf, if_pos rfl]
    · exact ih _ row hmem

/-- The second pass never changes the attribute entry of an existing node. -/
theorem pass2_roleOf_preserved (rows : List Row) :
    ∀ G : Graph, ∀ m : String, ∀ x : Option String,
    roleOf G m = some x →
    roleOf (rows.foldl (fun G row =>
        ["proposer", "seconder"].foldl (fun G relation =>
          processRelation G (candName row) (rowField row relation) relation) G) G) m
      = some x := by
  induction rows with
  | nil => intro G m x h; exact h
  | cons row rows ih =>
    intro G m x h
    rw [List.foldl_cons]
    apply ih
    simp only [List.foldl_cons, List.foldl_nil]
    exact processRelation_roleOf _ _ _ (processRelation_roleOf _ _ _ h)

/-- Role of a candidate in the finished graph. -/
theorem build_graph_roleOf_candidate (rows : List Row) (row : Row) (h : row ∈ rows) :
    roleOf (build_graph rows) (candName row) = some (some "candidate") := by
  unfold build_graph
  exact pass2_roleOf_preserved rows _ _ _ (pass1_roleOf rows _ row h)

/-! ### At most one node per name -/

theorem countP_append_single_le (es : List (String × Option String))
    (n : String) (x : Option String) (m : String)
    (habs : ¬ es.any (fun p => p.1 == n) = true)
    (h : es.countP (fun p => p.1 == m) ≤ 1) :
    (es ++ [(n, x)]).countP (fun p => p.1 == m) ≤ 1 := by
  rw [List.countP_append]
  by_cases hnm : n = m
  · subst hnm
    have hz : es.countP (fun p => p.1 == n) = 0 := by
      rw [List.countP_eq_zero]
      intro p hp hP
      exact habs (List.any_eq_true.2 ⟨p, hp, hP⟩)
    simp [hz, List.countP_cons]
  · have hnf : ((n, x).1 == m) = false := by simp [hnm]
    simp [List.countP_cons, hnf, h]

theorem countName_add_node_le (G : Graph) (n role m : String)
    (h : countName G m ≤ 1) : countName (G.add_node n role) m ≤ 1 := by
  unfold Graph.add_node countName
  by_cases hh : G.has_node n = true
  · rw [if_pos hh]
    show (G.nodes.map _).countP _ ≤ 1
    rw [countP_map_of_pred]
    · exact h
    · intro p
      by_cases hk : (p.1 == n) = true
      · simp [hk]
      · simp [hk]
  · rw [if_neg hh]
    exact countP_append_single_le G.nodes n (some role) m
      (by unfold Graph.has_node at hh; exact hh) h

theorem countName_add_edge_le (G : Graph) (u v rel m : String)
    (h : countName G m ≤ 1) : countName (G.add_edge u v rel) m ≤ 1 := by
  unfold Graph.add_edge countName Graph.has_node
  simp only [apply_ite Graph.nodes, ite_self]
  split
  · split
    · exact h
    · next hv => exact countP_append_single_le G.nodes v none m hv h
  · next hu =>
    split
    · exact countP_append_single_le G.nodes u none m hu h
    · next hv =>
      exact countP_append_single_le _ v none m hv
        (countP_append_single_le G.nodes u none m hu h)

theorem countName_processRelation_le (G : Graph) (cand field relation m : String)
    (h : countName G m ≤ 1) :
    countName (processRelation G cand field relation) m ≤ 1 := by
  unfold processRelation
  by_cases hne : pyStrip field ≠ ""
  · rw [if_pos hne]
    split
    · exact countName_add_edge_le _ _ _ _ _ (countName_add_node_le _ _ _ _ h)
    · exact countName_add_edge_le _ _ _ _ _ h
  · rw [if_neg hne]
    exact h

theorem countName_pass1_le (rows : List Row) :
    ∀ G : Graph, ∀ m : String, countName G m ≤ 1 →
    countName (rows.foldl (fun G row => G.add_node (candName row) "candidate") G) m ≤ 1 := by
  induction rows with
  | nil => intro G m h; exact h
  | cons row rows ih =>
    intro G m h
    rw [List.foldl_cons]
    exact ih _ _ (countName_add_node_le _ _ _ _ h)

theorem countName_pass2_le (rows : List Row) :
    ∀ G : Graph, ∀ m : String, countName G m ≤ 1 →
    countName (rows.foldl (fun G row =>
        ["proposer", "seconder"].foldl (fun G relation =>
          processRelation G (candName row) (rowField row relation) relation) G) G) m ≤ 1 := by
  induction rows with
  | nil => intro G m h; exact h
  | cons row rows ih =>
    intro G m h
    rw [List.foldl_cons]
    apply ih
    exact countName_processRelation_le _ _ _ _ _
      (countName_processRelation_le _ _ _ _ _ h)

theorem countName_build_le (rows : List Row) (m : String) :
    countName (build_graph rows) m ≤ 1 := by
  unfold build_graph
  have hbase : countName (⟨[], []⟩ : Graph) m ≤ 1 := by
    unfold countName
    simp
  exact countName_pass2_le rows _ m (countName_pass1_le rows _ m hbase)

theorem countName_eq_one_of_roleOf {G : Graph} {m : String} {x : Option String}
    (h : roleOf G m = some x) (hle : countName G m ≤ 1) : countName G m = 1 := by
  have hpos : 0 < countName G m := by
    unfold roleOf at h
    obtain ⟨p, hp, -⟩ := Option.map_eq_some'.1 h
    unfold countName
    rw [List.countP_pos_iff]
    have hP := List.find?_some hp
    exact ⟨p, List.mem_of_find?_eq_some hp, hP⟩
  omega

/-! ### Edge keys: at most one edge per ordered pair -/

theorem any_pair_iff_mem_keys (es : List (String × String × String))
    (a : String × String × String) :
    (es.any (fun e => e.1 == a.1 && e.2.1 == a.2.1) = true)
      ↔ (a.1, a.2.1) ∈ es.map (fun e => (e.1, e.2.1)) := by
  simp only [List.any_eq_true, Bool.and_eq_true, beq_iff_eq, List.mem_map]
  constructor
  · rintro ⟨e, he, h1, h2⟩
    exact ⟨e, he, by rw [h1, h2]⟩
  · rintro ⟨e, he, hk⟩
    exact ⟨e, he, (Prod.ext_iff.1 hk).1, (Prod.ext_iff.1 hk).2⟩

theorem keys_edgeStep (es : List (String × String × String))
    (a : String × String × String) :
    (edgeStep es a).map (fun e => (e.1, e.2.1))
      = if (a.1, a.2.1) ∈ es.map (fun e => (e.1, e.2.1))
        then es.map (fun e => (e.1, e.2.1))
        else es.map (fun e => (e.1, e.2.1)) ++ [(a.1, a.2.1)] := by
  unfold edgeStep
  by_cases hany : es.any (fun e => e.1 == a.1 && e.2.1 == a.2.1) = true
  · rw [if_pos hany, if_pos ((any_pair_iff_mem_keys es a).1 hany), List.map_map]
    apply List.map_congr_left
    intro e he
    by_cases hk : (e.1 == a.1 && e.2.1 == a.2.1) = true
    · simp only [Bool.and_eq_true, beq_iff_eq] at hk
      simp [Function.comp, hk.1, hk.2]
    · simp [Function.comp, hk]
  · rw [if_neg hany,
      if_neg (fun hmem => hany ((any_pair_iff_mem_keys es a).2 hmem)), List.map_append]
    simp

theorem keys_edgeStep_nodup (es : List (String × String × String))
    (a : String × String × String)
    (h : ((es.map (fun e => (e.1, e.2.1))).Nodup)) :
    ((edgeStep es a).map (fun e => (e.1, e.2.1))).Nodup := by
  rw [keys_edgeStep]
  by_cases hmem : (a.1, a.2.1) ∈ es.map (fun e => (e.1, e.2.1))
  · rw [if_pos hmem]; exact h
  · rw [if_neg hmem]
    rw [List.nodup_append]
    exact ⟨h, List.nodup_singleton _, by
      intro p hp hps
      rw [List.mem_singleton] at hps
      exact hmem (hps ▸ hp)⟩

theorem keys_foldl_edgeStep_nodup (adds : List (String × String × String)) :
    ∀ es : List (String × String × String),
    ((es.map (fun e => (e.1, e.2.1))).Nodup) →
    (((adds.foldl edgeStep es).map (fun e => (e.1, e.2.1))).Nodup) := by
  induction adds with
  | nil => intro es h; exact h
  | cons a adds ih =>
    intro es h
    rw [List.foldl_cons]
    exact ih _ (keys_edgeStep_nodup es a h)

theorem mem_keys_foldl_edgeStep (adds : List (String × String × String)) :
    ∀ es : List (String × String × String), ∀ p : String × String,
    (p ∈ (adds.foldl edgeStep es).map (fun e => (e.1, e.2.1))
      ↔ p ∈ es.map (fun e => (e.1, e.2.1)) ∨ p ∈ adds.map (fun e => (e.1, e.2.1))) := by
  induction adds with
  | nil => intro es p; simp
  | cons a adds ih =>
    intro es p
    rw [List.foldl_cons, ih]
    have hstep : p ∈ (edgeStep es a).map (fun e => (e.1, e.2.1))
        ↔ (p ∈ es.map (fun e => (e.1, e.2.1)) ∨ p = (a.1, a.2.1)) := by
      rw [keys_edgeStep]
      by_cases hmem : (a.1, a.2.1) ∈ es.map (fun e => (e.1, e.2.1))
      · rw [if_pos hmem]
        constructor
        · exact fun h => Or.inl h
        · rintro (h | h)
          · exact h
          · exact h ▸ hmem
      · rw [if_neg hmem]
        simp [List.mem_append]
    rw [hstep, List.map_cons, List.mem_cons]
    tauto

/-! ### Membership in the addition sequence -/

theorem rowAdditions_eq (row : Row) :
    rowAdditions row
      = (if pyStrip row.proposer ≠ "" then [(pyStrip row.proposer, candName row, "proposer")]
          else [])
        ++ (if pyStrip row.seconder ≠ "" then [(pyStrip row.seconder, candName row, "seconder")]
          else []) := by
  unfold rowAdditions
  by_cases hp : pyStrip row.proposer = "" <;> by_cases hs : pyStrip row.seconder = "" <;>
    simp [rowField_proposer, rowField_seconder, hp, hs]

theorem mem_rowAdditions_iff (row : Row) (e : String × String × String) :
    e ∈ rowAdditions row
      ↔ (pyStrip row.proposer ≠ "" ∧ e = (pyStrip row.proposer, candName row, "proposer"))
        ∨ (pyStrip row.seconder ≠ "" ∧ e = (pyStrip row.seconder, candName row, "seconder")) := by
  rw [rowAdditions_eq, List.mem_append]
  by_cases hp : pyStrip row.proposer = "" <;> by_cases hs : pyStrip row.seconder = "" <;>
    simp [hp, hs]

theorem mem_additions_iff (rows : List Row) (e : String × String × String) :
    e ∈ additions rows ↔ ∃ row, row ∈ rows ∧ e ∈ rowAdditions row := by
  unfold additions
  exact List.mem_flatMap

/-! ### `lastAdd` facts -/

theorem lastAdd_some {adds : List (String × String × String)} {u v : String}
    {e : String × String × String} (h : lastAdd adds u v = some e) :
    e ∈ adds ∧ e.1 = u ∧ e.2.1 = v := by
  unfold lastAdd at h
  have hmem := List.mem_of_find?_eq_some h
  have hP := List.find?_some h
  simp only [Bool.and_eq_true, beq_iff_eq] at hP
  exact ⟨List.mem_reverse.1 hmem, hP.1, hP.2⟩

theorem lastAdd_ne_none {adds : List (String × String × String)} {u v : String}
    {e : String × String × String} (hmem : e ∈ adds) (h1 : e.1 = u) (h2 : e.2.1 = v) :
    lastAdd adds u v ≠ none := by
  unfold lastAdd
  intro hnone
  rw [List.find?_eq_none] at hnone
  exact hnone e (List.mem_reverse.2 hmem) (by simp [h1, h2])

/-- `lookupEdge` on the finished graph is the last addition for the pair. -/
theorem lookupEdge_build_graph (rows : List Row) (u v : String) :
    lookupEdge (build_graph rows) u v = lastAdd (additions rows) u v := by
  unfold lookupEdge
  rw [build_graph_edges, findPair_foldl_edgeStep]
  rw [show (([] : List (String × String × String)).find?
    (fun e => e.1 == u && e.2.1 == v)) = none from rfl, Option.or_none]

/-- A candidate display name contains a space, so is never the empty string. -/
theorem candName_ne_empty (row : Row) : candName row ≠ "" := by
  intro h
  have hdata := congrArg String.data h
  unfold candName at hdata
  simp [String.data_append] at hdata

/-! ### The HTML patch step of `export_html` -/

/-- The banner-plus-script markup injected by `export_html` (the Python
triple-quoted `injection` literal, verbatim; braces and apostrophes are
written as character escapes). -/
def bannerInjection : String :=
  "\n<div style=\"padding:10px; background:#f9f9f9; border-bottom:1px solid #ddd;\">\n  <input id=\"node-search\" type=\"text\" placeholder=\"Search node...\" style=\"width:200px;\" />\n  <button onclick=\"searchNode()\">Search</button>\n</div>\n<script type=\"text/javascript\">\n  document.addEventListener(\"DOMContentLoaded\", function() \x7b\n    // search function\n    window.searchNode = function() \x7b\n      var term = document.getElementById(\x27node-search\x27).value.toLowerCase();\n      if (!term) return;\n      var all = network.body.data.nodes.get();\n      var matches = all.filter(n => n.label.toLowerCase().includes(term)).map(n => n.id);\n      network.selectNodes(matches);\n      if (matches.length) network.focus(matches[0], \x7bscale:1.5\x7d);\n    \x7d;\n    // double-click search on node\n    network.on(\x27doubleClick\x27, function(params) \x7b\n      if (params.nodes && params.nodes.length) \x7b\n        var node = network.body.data.nodes.get(params.nodes[0]);\n        var query = encodeURIComponent(node.label);\n        window.open(\x27https://www.google.com/search?q=\x27 + query, \x27_blank\x27);\n      \x7d\n    \x7d);\n  \x7d);\n</script>\n"

/-- The patch step of `export_html`:
`html = html.replace('<body>', '<body>' + injection)`. -/
def injectBanner (html : String) : String :=
  pyReplace html "<body>" ("<body>" ++ bannerInjection)

/-- The search input control of the banner (its identifying attribute). -/
def searchInputMarker : String := "id=\"node-search\""

/-- The search trigger of the banner (its identifying attribute). -/
def searchTriggerMarker : String := "onclick=\"searchNode()\""

/-- Modelled from the spec: the visualization library (pyvis) is external to
this repository; its default document opens the body with a plain,
attribute-free `<body>` tag.  A representative such default document. -/
def pyvisDefaultDoc : String :=
  "<html>\n<head>\n<meta charset=\"utf-8\">\n</head>\n<body>\n<div id=\"mynetwork\"></div>\n</body>\n</html>"

/-- A default document variant whose opening body tag carries attributes,
the case the spec claims is still patched exactly once. -/
def defaultDocWithBodyAttrs : String :=
  "<html>\n<head>\n<meta charset=\"utf-8\">\n</head>\n<body style=\"background:white\">\n<div id=\"mynetwork\"></div>\n</body>\n</html>"

/-! ### Congruence of `build_graph` in one row (used for the empty-field claim) -/

theorem build_graph_congr (l1 l2 : List Row) (r r' : Row)
    (hc : candName r = candName r')
    (hstep : ∀ G : Graph,
      processRelation (processRelation G (candName r) (rowField r "proposer") "proposer")
        (candName r) (rowField r "seconder") "seconder"
      = processRelation (processRelation G (candName r') (rowField r' "proposer") "proposer")
        (candName r') (rowField r' "seconder") "seconder") :
    build_graph (l1 ++ r :: l2) = build_graph (l1 ++ r' :: l2) := by
  unfold build_graph
  have hpass1 : ∀ G : Graph,
      (l1 ++ r :: l2).foldl (fun G row => G.add_node (candName row) "candidate") G
      = (l1 ++ r' :: l2).foldl (fun G row => G.add_node (candName row) "candidate") G := by
    intro G
    simp only [List.foldl_append, List.foldl_cons]
    rw [hc]
  have hpass2 : ∀ G : Graph,
      (l1 ++ r :: l2).foldl (fun G row =>
        ["proposer", "seconder"].foldl (fun G relation =>
          processRelation G (candName row) (rowField row relation) relation) G) G
      = (l1 ++ r' :: l2).foldl (fun G row =>
        ["proposer", "seconder"].foldl (fun G relation =>
          processRelation G (candName row) (rowField row relation) relation) G) G := by
    intro G
    simp only [List.foldl_append, List.foldl_cons, List.foldl_nil]
    rw [hstep]
  rw [hpass1, hpass2]

theorem pyStrip_empty : pyStrip "" = "" := rfl

/-- A `processRelation` step on a field that strips to empty is a no-op. -/
theorem processRelation_empty (G : Graph) (cand field relation : String)
    (h : pyStrip field = "") :
    processRelation G cand field relation = G := by
  unfold processRelation
  rw [if_neg (by simp [h])]

/-! ### Concrete rows used by the scenario claims and witnesses -/

/-- Row A of the spec's round-trip scenario. -/
def rowA : Row :=
  { candidate_surname := "Doe", candidate_firstname := "Jane",
    proposer := "Alice Smith", seconder := "" }

/-- Row B of the spec's round-trip scenario. -/
def rowB : Row :=
  { candidate_surname := "Smith", candidate_firstname := "Alice",
    proposer := "Bob Lee", seconder := "Jane Doe" }

/-- A row whose proposer and seconder are the same non-empty name. -/
def rowDup : Row :=
  { candidate_surname := "Doe", candidate_firstname := "Jane",
    proposer := "Alice Smith", seconder := "Alice Smith" }

/-- A row that names itself as proposer and as seconder. -/
def rowSelf : Row :=
  { candidate_surname := "B", candidate_firstname := "A",
    proposer := "A B", seconder := "A B" }

/-- A row that names itself as proposer only. -/
def rowSelfProposer : Row :=
  { candidate_surname := "B", candidate_firstname := "A",
    proposer := "A B", seconder := "" }

/-- A row with whitespace-only proposer and seconder fields. -/
def rowWs : Row :=
  { candidate_surname := "Doe", candidate_firstname := "Jane",
    proposer := "  ", seconder := "   " }

/-- A candidate whose firstname carries a leading space. -/
def rowWsName : Row :=
  { candidate_surname := "Smith", candidate_firstname := " Alice",
    proposer := "", seconder := "" }

/-- A row nominating that person with surrounding whitespace in the field. -/
def rowNom : Row :=
  { candidate_surname := "Doe", candidate_firstname := "Jane",
    proposer := " Alice Smith ", seconder := "" }

/-- A row with empty candidate name fields. -/
def rowEmptyName : Row :=
  { candidate_surname := "", candidate_firstname := "",
    proposer := "", seconder := "" }

/-!
## Claim theorems
-/

/-- C1 (counterexample): a single row whose proposer and seconder carry the
same name attempts two additions with distinct `(source, target, relation)`
triples, yet the finished graph holds a single edge (whose relation is the
later, `seconder`, one) — so edges with different relations between the same
ordered pair do not coexist, and the edge count is not the triple-deduplicated
field count (2). -/
theorem claim1_counterexample :
    additions [rowDup]
      = [("Alice Smith", "Jane Doe", "proposer"), ("Alice Smith", "Jane Doe", "seconder")]
    ∧ (additions [rowDup]).dedup.length = 2
    ∧ (build_graph [rowDup]).edges = [("Alice Smith", "Jane Doe", "seconder")]
    ∧ (build_graph [rowDup]).edges.length = 1 := by
  refine ⟨by decide, by decide, by decide, by decide⟩

/-- C1 (amended): `build_graph` keeps at most one edge per ordered
`(source, target)` pair, and the total edge count equals the number of
non-empty (after trimming) proposer/seconder fields across all rows,
de-duplicated on the `(source, target)` pair (not on the full triple). -/
theorem claim1_edge_count (rows : List Row) :
    (build_graph rows).edges.length
      = (((additions rows).map (fun e => (e.1, e.2.1))).dedup).length
    ∧ ((build_graph rows).edges.map (fun e => (e.1, e.2.1))).Nodup := by
  have hnodup : (((build_graph rows).edges).map (fun e => (e.1, e.2.1))).Nodup := by
    rw [build_graph_edges]
    exact keys_foldl_edgeStep_nodup _ [] (by simp)
  refine ⟨?_, hnodup⟩
  have hmem : ∀ p : String × String,
      p ∈ ((build_graph rows).edges).map (fun e => (e.1, e.2.1))
        ↔ p ∈ ((additions rows).map (fun e => (e.1, e.2.1))).dedup := by
    intro p
    rw [build_graph_edges, mem_keys_foldl_edgeStep, List.mem_dedup]
    simp
  have hperm := (List.perm_ext_iff_of_nodup hnodup
    (List.nodup_dedup _)).2 hmem
  calc (build_graph rows).edges.length
      = (((build_graph rows).edges).map (fun e => (e.1, e.2.1))).length := by
        rw [List.length_map]
    _ = (((additions rows).map (fun e => (e.1, e.2.1))).dedup).length :=
        hperm.length_eq

/-- C2: every name occurring as a row's candidate display name is present in
the finished graph as exactly one node, with role `candidate` — regardless of
row order and of that name also occurring as a proposer or seconder; the
second pass never overwrites an existing node's role. -/
theorem claim2_candidate_role (rows : List Row) (row : Row) (h : row ∈ rows) :
    roleOf (build_graph rows) (candName row) = some (some "candidate")
    ∧ countName (build_graph rows) (candName row) = 1 := by
  have hrole := build_graph_roleOf_candidate rows row h
  exact ⟨hrole, countName_eq_one_of_roleOf hrole (countName_build_le rows (candName row))⟩

/-- C2 (witness): the round-trip rows, instantiated for Alice Smith, who is
both a candidate and row A's proposer. -/
theorem claim2_candidate_role_witness :
    roleOf (build_graph [rowA, rowB]) (candName rowB) = some (some "candidate")
    ∧ countName (build_graph [rowA, rowB]) (candName rowB) = 1 :=
  claim2_candidate_role [rowA, rowB] rowB (by decide)

/-- C3 (counterexample): when the default document's opening body tag carries
attributes, the textual replacement of the literal `<body>` matches nothing,
so the exported document contains zero search inputs and zero triggers — not
exactly one as claimed. -/
theorem claim3_counterexample :
    injectBanner defaultDocWithBodyAttrs = defaultDocWithBodyAttrs
    ∧ countOccur (injectBanner defaultDocWithBodyAttrs) searchInputMarker = 0
    ∧ countOccur (injectBanner defaultDocWithBodyAttrs) searchTriggerMarker = 0 := by
  refine ⟨by decide, by decide, by decide⟩

/-- C3 (amended): when the default document opens its body with a literal
attribute-free `<body>` tag (as the library's default document does, exactly
once), the export step inserts the banner exactly once, yielding exactly one
search input control and one search trigger; when the opening body tag
carries attributes, the banner is not inserted at all. -/
theorem claim3_insert_once :
    countOccur pyvisDefaultDoc "<body>" = 1
    ∧ countOccur (injectBanner pyvisDefaultDoc) searchInputMarker = 1
    ∧ countOccur (injectBanner pyvisDefaultDoc) searchTriggerMarker = 1
    ∧ countOccur (injectBanner defaultDocWithBodyAttrs) searchInputMarker = 0 := by
  refine ⟨by decide, by decide, by decide, by decide⟩

/-- C4: a header lacking one or more required columns makes `read_rows` fail
with an error carrying exactly the missing columns (every missing required
column is in the error), and no rows are returned. -/
theorem claim4_missing_columns (fieldnames : List String)
    (records : List (List String))
    (h : ∃ c ∈ requiredCols, c ∉ fieldnames) :
    read_rows (some fieldnames) records
      = Except.error (requiredCols.filter (fun c => ! fieldnames.contains c))
    ∧ ∀ c ∈ requiredCols, c ∉ fieldnames →
        c ∈ requiredCols.filter (fun c => ! fieldnames.contains c) := by
  constructor
  · unfold read_rows
    simp only [Option.getD_some]
    obtain ⟨c, hc, hnc⟩ := h
    have hall : ¬ (requiredCols.all (fun c => fieldnames.contains c) = true) := by
      intro hall
      rw [List.all_eq_true] at hall
      have := hall c hc
      simp only [List.contains_iff_exists_mem_beq, beq_iff_eq] at this
      obtain ⟨c', hc', hcc⟩ := this
      exact hnc (hcc ▸ hc')
    rw [if_neg hall]
  · intro c hc hnc
    rw [List.mem_filter]
    refine ⟨hc, ?_⟩
    simp only [Bool.not_eq_eq_eq_not, Bool.not_true]
    rw [← Bool.not_eq_true]
    intro hcont
    simp only [List.contains_iff_exists_mem_beq, beq_iff_eq] at hcont
    obtain ⟨c', hc', hcc⟩ := hcont
    exact hnc (hcc ▸ hc')

/-- C4 (witness): a header with only `candidate_surname`. -/
theorem claim4_missing_columns_witness :
    read_rows (some ["candidate_surname"]) []
      = Except.error (requiredCols.filter (fun c => ! (["candidate_surname"].contains c)))
    ∧ "proposer" ∈ requiredCols.filter (fun c => ! (["candidate_surname"].contains c)) :=
  ⟨(claim4_missing_columns ["candidate_surname"] [] (by decide)).1,
   (claim4_missing_columns ["candidate_surname"] [] (by decide)).2
     "proposer" (by decide) (by decide)⟩

/-- C5: a row whose proposer (respectively seconder) strips to the empty
string contributes no node and no edge for that role: the graph is the one
built with that field replaced by the empty string (i.e. absent). -/
theorem claim5_empty_field_no_effect (l1 l2 : List Row) (row : Row) :
    (pyStrip row.proposer = "" →
      build_graph (l1 ++ row :: l2)
        = build_graph (l1 ++ { row with proposer := "" } :: l2))
    ∧ (pyStrip row.seconder = "" →
      build_graph (l1 ++ row :: l2)
        = build_graph (l1 ++ { row with seconder := "" } :: l2)) := by
  constructor
  · intro hp
    apply build_graph_congr l1 l2 row { row with proposer := "" } rfl
    intro G
    rw [rowField_proposer, rowField_proposer, rowField_seconder, rowField_seconder]
    show processRelation (processRelation G (candName row) row.proposer "proposer")
        (candName row) row.seconder "seconder"
      = processRelation (processRelation G (candName row) "" "proposer")
        (candName row) row.seconder "seconder"
    rw [processRelation_empty G _ _ _ hp, processRelation_empty G _ _ _ pyStrip_empty]
  · intro hs
    apply build_graph_congr l1 l2 row { row with seconder := "" } rfl
    intro G
    rw [rowField_proposer, rowField_proposer, rowField_seconder, rowField_seconder]
    show processRelation (processRelation G (candName row) row.proposer "proposer")
        (candName row) row.seconder "seconder"
      = processRelation (processRelation G (candName row) row.proposer "proposer")
        (candName row) "" "seconder"
    rw [processRelation_empty _ _ _ _ hs, processRelation_empty _ _ _ _ pyStrip_empty]

/-- C5 (witness): whitespace-only proposer and seconder fields. -/
theorem claim5_empty_field_no_effect_witness :
    build_graph [rowWs] = build_graph [{ rowWs with proposer := "" }]
    ∧ build_graph [rowWs] = build_graph [{ rowWs with seconder := "" }] :=
  ⟨(claim5_empty_field_no_effect [] [] rowWs).1 (by decide),
   (claim5_empty_field_no_effect [] [] rowWs).2 (by decide)⟩

/-- C6: the spec's round-trip scenario — two rows yield exactly the nodes
Jane Doe (candidate), Alice Smith (candidate), Bob Lee (proposer), and
exactly the edges Alice Smith→Jane Doe (proposer), Bob Lee→Alice Smith
(proposer), Jane Doe→Alice Smith (seconder); Alice Smith keeps the
`candidate` role despite also being a proposer. -/
theorem claim6_round_trip :
    build_graph [rowA, rowB]
      = { nodes := [("Jane Doe", some "candidate"), ("Alice Smith", some "candidate"),
            ("Bob Lee", some "proposer")],
          edges := [("Alice Smith", "Jane Doe", "proposer"),
            ("Bob Lee", "Alice Smith", "proposer"),
            ("Jane Doe", "Alice Smith", "seconder")] } := by
  decide

/-- C7 (counterexample): in a row whose proposer *and* seconder both equal
the candidate's display name, the self-loop is created but its relation is
overwritten to `seconder` — the graph holds no self-loop carrying the
`proposer` relation, contradicting the claim as stated. -/
theorem claim7_counterexample :
    pyStrip rowSelf.proposer = candName rowSelf
    ∧ lookupEdge (build_graph [rowSelf]) (candName rowSelf) (candName rowSelf)
        = some (candName rowSelf, candName rowSelf, "seconder")
    ∧ (build_graph [rowSelf]).edges.countP (fun e => e.2.2 == "proposer") = 0 := by
  refine ⟨by decide, by decide, by decide⟩

/-- C7 (amended): a row whose trimmed proposer equals its candidate display
name yields a self-loop edge, not filtered out; the edge carries the
`proposer` relation provided no row with the same candidate name has a
trimmed seconder equal to that name (otherwise the seconder addition to the
same ordered pair overwrites the relation, a `DiGraph` keeping one edge per
pair). -/
theorem claim7_self_loop (rows : List Row) (row : Row) (hmem : row ∈ rows)
    (hp : pyStrip row.proposer = candName row)
    (hs : ∀ r ∈ rows, candName r = candName row → pyStrip r.seconder ≠ candName row) :
    lookupEdge (build_graph rows) (candName row) (candName row)
      = some (candName row, candName row, "proposer") := by
  rw [lookupEdge_build_graph]
  have hpne : pyStrip row.proposer ≠ "" := by
    rw [hp]
    exact candName_ne_empty row
  have hexmem : (pyStrip row.proposer, candName row, "proposer") ∈ additions rows :=
    (mem_additions_iff rows _).2
      ⟨row, hmem, (mem_rowAdditions_iff row _).2 (Or.inl ⟨hpne, rfl⟩)⟩
  have hne : lastAdd (additions rows) (candName row) (candName row) ≠ none :=
    lastAdd_ne_none hexmem hp rfl
  obtain ⟨e, he⟩ := Option.ne_none_iff_exists'.1 hne
  obtain ⟨hemem, he1, he2⟩ := lastAdd_some he
  obtain ⟨r, hr, hrmem⟩ := (mem_additions_iff rows e).1 hemem
  rcases (mem_rowAdditions_iff r e).1 hrmem with ⟨-, hef⟩ | ⟨-, hef⟩
  · have he3 : e.2.2 = "proposer" := by rw [hef]
    have heta : e = (e.1, e.2.1, e.2.2) := rfl
    rw [he, heta, he1, he2, he3]
  · exfalso
    have hcand : candName r = candName row := by
      have := he2
      rw [hef] at this
      exact this
    have hsec : pyStrip r.seconder = candName row := by
      have := he1
      rw [hef] at this
      exact this
    exact hs r hr hcand hsec

/-- C7 (witness): a self-nominating proposer with an empty seconder. -/
theorem claim7_self_loop_witness :
    lookupEdge (build_graph [rowSelfProposer]) (candName rowSelfProposer)
        (candName rowSelfProposer)
      = some (candName rowSelfProposer, candName rowSelfProposer, "proposer") :=
  claim7_self_loop [rowSelfProposer] rowSelfProposer (by decide) (by decide) (by decide)

/-- C8: for every ordered pair, the finished graph holds the edge recorded by
the *last* addition for that pair in processing order (rows in order;
`proposer` before `seconder` within a row) — a later addition overwrites the
relation — and when the pair was added at all, exactly one edge exists for
it. -/
theorem claim8_last_relation_wins (rows : List Row) (u v : String) :
    lookupEdge (build_graph rows) u v = lastAdd (additions rows) u v
    ∧ (lastAdd (additions rows) u v ≠ none → countPair (build_graph rows) u v = 1) := by
  refine ⟨lookupEdge_build_graph rows u v, fun hne => ?_⟩
  have hle : countPair (build_graph rows) u v ≤ 1 := by
    unfold countPair
    rw [build_graph_edges]
    exact countP_foldl_edgeStep_le _ [] u v (by simp)
  obtain ⟨e, he⟩ := Option.ne_none_iff_exists'.1
    ((lookupEdge_build_graph rows u v).symm ▸ hne :
      lookupEdge (build_graph rows) u v ≠ none)
  have hpos : 0 < countPair (build_graph rows) u v := by
    unfold lookupEdge at he
    unfold countPair
    rw [List.countP_pos_iff]
    have hP := List.find?_some he
    exact ⟨e, List.mem_of_find?_eq_some he, hP⟩
  omega

/-- C8 (witness): the duplicated-nominator row — the seconder addition,
processed after the proposer one in the same row, is the one kept. -/
theorem claim8_last_relation_wins_witness :
    lookupEdge (build_graph [rowDup]) "Alice Smith" "Jane Doe"
      = lastAdd (additions [rowDup]) "Alice Smith" "Jane Doe"
    ∧ countPair (build_graph [rowDup]) "Alice Smith" "Jane Doe" = 1 :=
  ⟨(claim8_last_relation_wins [rowDup] "Alice Smith" "Jane Doe").1,
   (claim8_last_relation_wins [rowDup] "Alice Smith" "Jane Doe").2 (by decide)⟩

/-- C9: the candidate display name is exactly firstname, a space, and
surname, with no trimming; a candidate with a leading space in a name field
is a distinct node from the trimmed nominator string of the same person, and
empty name fields yield the single-space display name. -/
theorem claim9_display_name_untrimmed :
    (∀ row : Row, candName row = row.candidate_firstname ++ " " ++ row.candidate_surname)
    ∧ candName rowEmptyName = " "
    ∧ roleOf (build_graph [rowWsName, rowNom]) " Alice Smith" = some (some "candidate")
    ∧ roleOf (build_graph [rowWsName, rowNom]) "Alice Smith" = some (some "proposer")
    ∧ " Alice Smith" ≠ "Alice Smith" := by
  refine ⟨fun row => rfl, by decide, by decide, by decide, by decide⟩

/-- C10: a completely empty input file (`fieldnames` is `None`) fails with
the same schema error as a missing-column file, the error naming all four
required columns. -/
theorem claim10_empty_file :
    read_rows none [] = Except.error requiredCols
    ∧ read_rows none [] = read_rows (some []) [] := by
  exact ⟨rfl, rfl⟩

end Deputies
